import Mathlib

/-!
Shallow embedding of the Bingefy episode-progression engine
(`dedupeWatchedEntries`, `findFirstUnwatchedEpisode`, the watch-list
category build, the upcoming/past partition and the mark/unmark
mutations from `ShowsPage.tsx`), together with theorems checking the
natural-language specification against it.

Timestamps are modelled as the result of JavaScript date parsing:
`some ms` for a string that parses, `none` for a malformed string
(JS `new Date(bad).getTime()` is `NaN`, and every `<`/`>` comparison
involving `NaN` is false).  Air dates are modelled as the raw strings
the code compares lexicographically; a JS `null`/empty air date is the
empty string, which is falsy in the `ep.air_date && ...` guards.
-/

namespace Bingefy

/-- One watch event, as stored per show: `{season, episode, watchedAt}`.
`watchedAt` holds the parsed timestamp (`none` = malformed string). -/
structure WatchedEntry where
  season : Nat
  episode : Nat
  watchedAt : Option Int
deriving DecidableEq, Repr

/-- JS `new Date(a) > new Date(b)`: false whenever either side is `NaN`. -/
def jsDateGt : Option Int → Option Int → Bool
  | some a, some b => decide (b < a)
  | some _, none => false
  | none, _ => false

/-- The dedupe key `"S|E"` of an entry. -/
def entryKey (e : WatchedEntry) : Nat × Nat := (e.season, e.episode)

/-- One step of the `map[key]` update in `dedupeWatchedEntries`:
if the key is present, replace only when the new timestamp is strictly
greater (JS `new Date(e.watchedAt) > new Date(map[key].watchedAt)`);
otherwise insert at the end (JS objects preserve insertion order of
string keys, and replacing keeps the original position). -/
def insertEntry : List ((Nat × Nat) × WatchedEntry) → WatchedEntry → List ((Nat × Nat) × WatchedEntry)
  | [], e => [(entryKey e, e)]
  | (k, r) :: rest, e =>
    if entryKey e = k then
      (k, if jsDateGt e.watchedAt r.watchedAt then e else r) :: rest
    else
      (k, r) :: insertEntry rest e

/-- Function `dedupeWatchedEntries`: fold the raw entries through the keyed map,
then `Object.values` in key-insertion order. -/
def dedupeWatchedEntries (entries : List WatchedEntry) : List WatchedEntry :=
  (entries.foldl insertEntry []).map Prod.snd

/-- Association-list lookup mirroring `map[key]`. -/
def lookupKey (k : Nat × Nat) : List ((Nat × Nat) × WatchedEntry) → Option WatchedEntry
  | [] => none
  | (k', r) :: rest => if k = k' then some r else lookupKey k rest

/-- The per-key effect of processing one entry. -/
def pickLatest : Option WatchedEntry → WatchedEntry → Option WatchedEntry
  | none, e => some e
  | some r, e => some (if jsDateGt e.watchedAt r.watchedAt then e else r)

theorem lookupKey_insertEntry (m : List ((Nat × Nat) × WatchedEntry)) (e : WatchedEntry)
    (k : Nat × Nat) :
    lookupKey k (insertEntry m e) =
      if entryKey e = k then pickLatest (lookupKey k m) e else lookupKey k m := by
  induction m with
  | nil =>
    simp only [insertEntry, lookupKey, pickLatest]
    by_cases h : entryKey e = k
    · rw [if_pos h.symm, if_pos h]
    · rw [if_neg (fun h' => h h'.symm), if_neg h]
  | cons p rest ih =>
    obtain ⟨k', r⟩ := p
    by_cases h1 : entryKey e = k'
    · simp only [insertEntry, if_pos h1]
      by_cases h2 : k = k'
      · have he : entryKey e = k := h1.trans h2.symm
        simp only [lookupKey, if_pos h2, if_pos he, pickLatest]
      · have he : ¬entryKey e = k := fun h => h2 (h.symm.trans h1)
        simp only [lookupKey, if_neg h2, if_neg he]
    · simp only [insertEntry, if_neg h1]
      by_cases h2 : k = k'
      · have he : ¬entryKey e = k := fun h => h1 (h.trans h2)
        simp only [lookupKey, if_pos h2, if_neg he]
      · simp only [lookupKey, if_neg h2, ih]

theorem lookupKey_foldl (entries : List WatchedEntry)
    (m : List ((Nat × Nat) × WatchedEntry)) (k : Nat × Nat) :
    lookupKey k (entries.foldl insertEntry m) =
      (entries.filter (fun e => entryKey e = k)).foldl pickLatest (lookupKey k m) := by
  induction entries generalizing m with
  | nil => rfl
  | cons e rest ih =>
    rw [List.foldl_cons, ih, lookupKey_insertEntry, List.filter_cons]
    by_cases h : entryKey e = k
    · rw [if_pos h]
      simp only [h, decide_True, if_true, List.foldl_cons]
    · rw [if_neg h]
      simp only [h, decide_False, if_false, Bool.false_eq_true, ite_false]

/-- The parsed timestamp of an entry, defaulting to 0 (only used under
validity hypotheses, where it is never the default). -/
def tsVal (e : WatchedEntry) : Int := e.watchedAt.getD 0

theorem lookupKey_some_mem (m : List ((Nat × Nat) × WatchedEntry)) (k : Nat × Nat)
    (r : WatchedEntry) (h : lookupKey k m = some r) : r ∈ m.map Prod.snd := by
  induction m with
  | nil => simp [lookupKey] at h
  | cons p rest ih =>
    obtain ⟨k', r'⟩ := p
    by_cases hk : k = k'
    · simp only [lookupKey, if_pos hk, Option.some.injEq] at h
      simp [h]
    · simp only [lookupKey, if_neg hk] at h
      simp [ih h]

theorem insertEntry_key_inv (m : List ((Nat × Nat) × WatchedEntry)) (e : WatchedEntry)
    (h : ∀ p ∈ m, entryKey p.2 = p.1) : ∀ p ∈ insertEntry m e, entryKey p.2 = p.1 := by
  induction m with
  | nil =>
    intro p hp
    simp only [insertEntry, List.mem_singleton] at hp
    simp [hp]
  | cons q rest ih =>
    obtain ⟨k', r⟩ := q
    intro p hp
    by_cases h1 : entryKey e = k'
    · simp only [insertEntry, if_pos h1, List.mem_cons] at hp
      rcases hp with hp | hp
      · subst hp
        by_cases hg : jsDateGt e.watchedAt r.watchedAt
        · simpa [hg] using h1
        · simpa [hg] using h ⟨k', r⟩ (by simp)
      · exact h p (List.mem_cons_of_mem _ hp)
    · simp only [insertEntry, if_neg h1, List.mem_cons] at hp
      rcases hp with hp | hp
      · subst hp
        exact h ⟨k', r⟩ (by simp)
      · exact ih (fun q hq => h q (List.mem_cons_of_mem _ hq)) p hp

theorem insertEntry_keys (m : List ((Nat × Nat) × WatchedEntry)) (e : WatchedEntry) :
    (insertEntry m e).map Prod.fst =
      if (lookupKey (entryKey e) m).isSome then m.map Prod.fst
      else m.map Prod.fst ++ [entryKey e] := by
  induction m with
  | nil => simp [insertEntry, lookupKey]
  | cons q rest ih =>
    obtain ⟨k', r⟩ := q
    by_cases h1 : entryKey e = k'
    · simp [insertEntry, if_pos h1, lookupKey, h1]
    · simp only [insertEntry, if_neg h1, lookupKey, if_neg h1, List.map_cons, ih]
      by_cases h2 : (lookupKey (entryKey e) rest).isSome
      · simp [h2]
      · simp [h2]

theorem lookup_none_not_mem (m : List ((Nat × Nat) × WatchedEntry)) (k : Nat × Nat)
    (h : lookupKey k m = none) : k ∉ m.map Prod.fst := by
  induction m with
  | nil => simp
  | cons q rest ih =>
    obtain ⟨k', r⟩ := q
    by_cases hk : k = k'
    · simp [lookupKey, if_pos hk] at h
    · simp only [lookupKey, if_neg hk] at h
      simp [hk, ih h]

theorem insertEntry_nodup (m : List ((Nat × Nat) × WatchedEntry)) (e : WatchedEntry)
    (h : (m.map Prod.fst).Nodup) : ((insertEntry m e).map Prod.fst).Nodup := by
  rw [insertEntry_keys]
  by_cases hl : (lookupKey (entryKey e) m).isSome
  · simpa [hl] using h
  · rw [if_neg hl]
    have hnone : lookupKey (entryKey e) m = none := by
      cases hcase : lookupKey (entryKey e) m
      · rfl
      · simp [hcase] at hl
    refine List.Nodup.append h (List.nodup_singleton _) ?_
    intro a ha hb
    rw [List.mem_singleton] at hb
    subst hb
    exact lookup_none_not_mem m _ hnone ha

theorem foldl_insert_inv (entries : List WatchedEntry)
    (m : List ((Nat × Nat) × WatchedEntry))
    (h1 : ∀ p ∈ m, entryKey p.2 = p.1) (h2 : (m.map Prod.fst).Nodup) :
    (∀ p ∈ entries.foldl insertEntry m, entryKey p.2 = p.1) ∧
      ((entries.foldl insertEntry m).map Prod.fst).Nodup := by
  induction entries generalizing m with
  | nil => exact ⟨h1, h2⟩
  | cons e rest ih =>
    exact ih (insertEntry m e) (insertEntry_key_inv m e h1) (insertEntry_nodup m e h2)

theorem nodup_keys_mem_eq (m : List ((Nat × Nat) × WatchedEntry)) (k : Nat × Nat)
    (r1 r2 : WatchedEntry) (hnd : (m.map Prod.fst).Nodup)
    (hm1 : (k, r1) ∈ m) (hm2 : (k, r2) ∈ m) : r1 = r2 := by
  induction m with
  | nil => simp at hm1
  | cons q rest ih =>
    obtain ⟨k', r'⟩ := q
    simp only [List.map_cons, List.nodup_cons] at hnd
    rcases List.mem_cons.1 hm1 with h1 | h1 <;> rcases List.mem_cons.1 hm2 with h2 | h2
    · obtain ⟨hk1, hr1⟩ := Prod.mk.inj h1
      obtain ⟨hk2, hr2⟩ := Prod.mk.inj h2
      rw [hr1, hr2]
    · obtain ⟨hk, _⟩ := Prod.mk.inj h1
      exact absurd (hk ▸ (List.mem_map_of_mem Prod.fst h2 : (k, r2).1 ∈ _)) hnd.1
    · obtain ⟨hk, _⟩ := Prod.mk.inj h2
      exact absurd (hk ▸ (List.mem_map_of_mem Prod.fst h1 : (k, r1).1 ∈ _)) hnd.1
    · exact ih hnd.2 h1 h2

theorem foldl_pickLatest_max (l : List WatchedEntry)
    (hvalid : ∀ e ∈ l, e.watchedAt.isSome = true) (r0 : WatchedEntry)
    (h0 : r0.watchedAt.isSome = true) :
    ∃ r, l.foldl pickLatest (some r0) = some r ∧ (r = r0 ∨ r ∈ l) ∧
      r.watchedAt.isSome = true ∧ tsVal r0 ≤ tsVal r ∧ ∀ e ∈ l, tsVal e ≤ tsVal r := by
  induction l generalizing r0 with
  | nil => exact ⟨r0, rfl, Or.inl rfl, h0, le_refl _, by simp⟩
  | cons e rest ih =>
    have he : e.watchedAt.isSome = true := hvalid e (by simp)
    obtain ⟨ve, hve⟩ := Option.isSome_iff_exists.1 he
    obtain ⟨v0, hv0⟩ := Option.isSome_iff_exists.1 h0
    have hstep : pickLatest (some r0) e = some (if jsDateGt e.watchedAt r0.watchedAt then e else r0) := rfl
    by_cases hg : jsDateGt e.watchedAt r0.watchedAt
    · obtain ⟨r, hr, hmem, hs, hle, hall⟩ :=
        ih (fun x hx => hvalid x (List.mem_cons_of_mem _ hx)) e he
      refine ⟨r, ?_, ?_, hs, ?_, ?_⟩
      · simpa [List.foldl_cons, hstep, hg] using hr
      · rcases hmem with h | h
        · exact Or.inr (h ▸ List.mem_cons_self _ _)
        · exact Or.inr (List.mem_cons_of_mem _ h)
      · have : v0 < ve := by
          simpa [jsDateGt, hve, hv0] using hg
        calc tsVal r0 = v0 := by simp [tsVal, hv0]
          _ ≤ ve := le_of_lt this
          _ = tsVal e := by simp [tsVal, hve]
          _ ≤ tsVal r := hle
      · intro x hx
        rcases List.mem_cons.1 hx with h | h
        · exact h ▸ hle
        · exact hall x h
    · obtain ⟨r, hr, hmem, hs, hle, hall⟩ :=
        ih (fun x hx => hvalid x (List.mem_cons_of_mem _ hx)) r0 h0
      refine ⟨r, ?_, ?_, hs, hle, ?_⟩
      · simpa [List.foldl_cons, hstep, hg] using hr
      · rcases hmem with h | h
        · exact Or.inl h
        · exact Or.inr (List.mem_cons_of_mem _ h)
      · intro x hx
        rcases List.mem_cons.1 hx with h | h
        · have : ¬ v0 < ve := by
            subst h
            intro hlt
            exact hg (by simp [jsDateGt, hve, hv0, hlt])
          subst h
          calc tsVal x = ve := by simp [tsVal, hve]
            _ ≤ v0 := le_of_not_lt this
            _ = tsVal r0 := by simp [tsVal, hv0]
            _ ≤ tsVal r := hle
        · exact hall x h

theorem foldl_pickLatest_no_gt (l : List WatchedEntry) (r0 : WatchedEntry)
    (h : ∀ e ∈ l, jsDateGt e.watchedAt r0.watchedAt = false) :
    l.foldl pickLatest (some r0) = some r0 := by
  induction l with
  | nil => rfl
  | cons e rest ih =>
    have hstep : pickLatest (some r0) e = some r0 := by
      simp [pickLatest, h e (by simp)]
    rw [List.foldl_cons, hstep]
    exact ih (fun x hx => h x (List.mem_cons_of_mem _ hx))

theorem dedupe_unique_key (entries : List WatchedEntry) :
    ∀ r1 ∈ dedupeWatchedEntries entries, ∀ r2 ∈ dedupeWatchedEntries entries,
      entryKey r1 = entryKey r2 → r1 = r2 := by
  intro r1 h1 r2 h2 hk
  obtain ⟨inv1, inv2⟩ := foldl_insert_inv entries [] (by simp) (by simp)
  obtain ⟨p1, hp1, he1⟩ := List.mem_map.1 h1
  obtain ⟨p2, hp2, he2⟩ := List.mem_map.1 h2
  have k1 : entryKey r1 = p1.1 := he1 ▸ inv1 p1 hp1
  have k2 : entryKey r2 = p2.1 := he2 ▸ inv1 p2 hp2
  have m1 : (entryKey r1, r1) ∈ entries.foldl insertEntry [] := by
    rw [k1, ← he1, Prod.mk.eta]
    exact hp1
  have m2 : (entryKey r1, r2) ∈ entries.foldl insertEntry [] := by
    rw [hk, k2, ← he2, Prod.mk.eta]
    exact hp2
  exact nodup_keys_mem_eq _ _ _ _ inv2 m1 m2

theorem dedupe_lookup (entries : List WatchedEntry) (k : Nat × Nat) :
    lookupKey k (entries.foldl insertEntry []) =
      (entries.filter (fun e => entryKey e = k)).foldl pickLatest none :=
  lookupKey_foldl entries [] k

/-- C5: for every raw watched-entry list, dedupe keeps at most one entry per
(season, episode) pair (and maps the empty input to the empty list); for each
pair occurring in an input whose timestamps all parse, the retained entry is
one of the raw entries for that pair and its `watchedAt` is maximal among all
raw entries sharing the pair. -/
theorem dedupe_normalizes (entries : List WatchedEntry) :
    dedupeWatchedEntries ([] : List WatchedEntry) = [] ∧
    (∀ r1 ∈ dedupeWatchedEntries entries, ∀ r2 ∈ dedupeWatchedEntries entries,
       entryKey r1 = entryKey r2 → r1 = r2) ∧
    ((∀ e ∈ entries, e.watchedAt.isSome = true) →
      ∀ s ep, (∃ e ∈ entries, e.season = s ∧ e.episode = ep) →
      ∃ r ∈ dedupeWatchedEntries entries, r.season = s ∧ r.episode = ep ∧ r ∈ entries ∧
        ∀ e ∈ entries, e.season = s → e.episode = ep → tsVal e ≤ tsVal r) := by
  refine ⟨rfl, dedupe_unique_key entries, ?_⟩
  intro hvalid s ep hocc
  obtain ⟨e0, he0, hs0, hp0⟩ := hocc
  have hmemf : e0 ∈ entries.filter (fun e => entryKey e = (s, ep)) := by
    rw [List.mem_filter]
    exact ⟨he0, by simp [entryKey, hs0, hp0]⟩
  cases hfil : entries.filter (fun e => entryKey e = (s, ep)) with
  | nil =>
    rw [hfil] at hmemf
    simp at hmemf
  | cons hd tl =>
    have hsub : ∀ e ∈ hd :: tl, e ∈ entries ∧ entryKey e = (s, ep) := by
      intro e he
      have hm : e ∈ entries.filter (fun e => entryKey e = (s, ep)) := hfil ▸ he
      rw [List.mem_filter] at hm
      exact ⟨hm.1, by simpa using hm.2⟩
    have hhd := hsub hd (List.mem_cons_self _ _)
    obtain ⟨r, hr, hmem, hrs, hle, hall⟩ :=
      foldl_pickLatest_max tl
        (fun e he => hvalid e (hsub e (List.mem_cons_of_mem _ he)).1)
        hd (hvalid hd hhd.1)
    have hlook : lookupKey (s, ep) (entries.foldl insertEntry []) = some r := by
      rw [dedupe_lookup, hfil]
      simpa [pickLatest] using hr
    have hrd : r ∈ dedupeWatchedEntries entries := lookupKey_some_mem _ _ _ hlook
    have hrk : entryKey r = (s, ep) := by
      rcases hmem with h | h
      · exact h ▸ hhd.2
      · exact (hsub r (List.mem_cons_of_mem _ h)).2
    have hrin : r ∈ entries := by
      rcases hmem with h | h
      · exact h ▸ hhd.1
      · exact (hsub r (List.mem_cons_of_mem _ h)).1
    have hrk' : (r.season, r.episode) = (s, ep) := hrk
    obtain ⟨hrs', hre'⟩ := Prod.mk.inj hrk'
    refine ⟨r, hrd, hrs', hre', hrin, ?_⟩
    intro e he hes hee
    have hef : e ∈ entries.filter (fun x => entryKey x = (s, ep)) := by
      rw [List.mem_filter]
      exact ⟨he, by simp [entryKey, hes, hee]⟩
    rw [hfil] at hef
    rcases List.mem_cons.1 hef with h | h
    · exact h ▸ hle
    · exact hall e h

/-- Witness for C5 at a concrete duplicated input. -/
theorem dedupe_normalizes_witness :
    ∃ r ∈ dedupeWatchedEntries [⟨1, 2, some 5⟩, ⟨1, 2, some 9⟩],
      r.season = 1 ∧ r.episode = 2 ∧
      r ∈ [(⟨1, 2, some 5⟩ : WatchedEntry), ⟨1, 2, some 9⟩] ∧
      ∀ e ∈ [(⟨1, 2, some 5⟩ : WatchedEntry), ⟨1, 2, some 9⟩],
        e.season = 1 → e.episode = 2 → tsVal e ≤ tsVal r :=
  (dedupe_normalizes [⟨1, 2, some 5⟩, ⟨1, 2, some 9⟩]).2.2 (by decide) 1 2
    ⟨⟨1, 2, some 5⟩, by simp, rfl, rfl⟩

/-- C10: the normalizer replaces a retained entry only on a strictly greater
parsed timestamp, so an entry whose timestamp does not parse never replaces a
retained entry; and when no entry with a key strictly exceeds another (equal
or unparseable timestamps), the first-encountered entry for that key is the
one retained — the result is first-seen-wins deterministic in input order. -/
theorem dedupe_first_seen_deterministic (entries : List WatchedEntry) (s ep : Nat)
    (hno : ∀ e1 ∈ entries, e1.season = s → e1.episode = ep →
        ∀ e2 ∈ entries, e2.season = s → e2.episode = ep →
          jsDateGt e1.watchedAt e2.watchedAt = false)
    (hd : WatchedEntry) (tl : List WatchedEntry)
    (hfil : entries.filter (fun e => entryKey e = (s, ep)) = hd :: tl) :
    (∀ (m : List ((Nat × Nat) × WatchedEntry)) (e : WatchedEntry) (k : Nat × Nat)
        (r : WatchedEntry), lookupKey k m = some r → e.watchedAt = none →
        lookupKey k (insertEntry m e) = some r) ∧
    hd ∈ dedupeWatchedEntries entries ∧
    ∀ r ∈ dedupeWatchedEntries entries, r.season = s → r.episode = ep → r = hd := by
  have hsub : ∀ e ∈ hd :: tl, e ∈ entries ∧ entryKey e = (s, ep) := by
    intro e he
    have hm : e ∈ entries.filter (fun e => entryKey e = (s, ep)) := hfil ▸ he
    rw [List.mem_filter] at hm
    exact ⟨hm.1, by simpa using hm.2⟩
  have hhd := hsub hd (List.mem_cons_self _ _)
  have hkey : ∀ e ∈ hd :: tl, e.season = s ∧ e.episode = ep := by
    intro e he
    have hk : (e.season, e.episode) = (s, ep) := (hsub e he).2
    exact ⟨(Prod.mk.inj hk).1, (Prod.mk.inj hk).2⟩
  have hlook : lookupKey (s, ep) (entries.foldl insertEntry []) = some hd := by
    rw [dedupe_lookup, hfil]
    have : (hd :: tl).foldl pickLatest none = tl.foldl pickLatest (some hd) := rfl
    rw [this]
    refine foldl_pickLatest_no_gt tl hd ?_
    intro e he
    have h1 := hsub e (List.mem_cons_of_mem _ he)
    have k1 := hkey e (List.mem_cons_of_mem _ he)
    have k2 := hkey hd (List.mem_cons_self _ _)
    exact hno e h1.1 k1.1 k1.2 hd hhd.1 k2.1 k2.2
  have hin : hd ∈ dedupeWatchedEntries entries := lookupKey_some_mem _ _ _ hlook
  refine ⟨?_, hin, ?_⟩
  · intro m e k r hl hnone
    rw [lookupKey_insertEntry]
    by_cases hek : entryKey e = k
    · rw [if_pos hek, hl]
      simp [pickLatest, jsDateGt, hnone]
    · rw [if_neg hek, hl]
  · intro r hr hrs hre
    have hk : entryKey r = entryKey hd := by
      have h1 : (r.season, r.episode) = (s, ep) := by rw [hrs, hre]
      have h2 : (hd.season, hd.episode) = (s, ep) := hhd.2
      show (r.season, r.episode) = (hd.season, hd.episode)
      rw [h1, h2]
    exact dedupe_unique_key entries r hr hd hin hk

/-- Witness for C10: a malformed-timestamp first entry is retained against a
later well-formed duplicate. -/
theorem dedupe_first_seen_deterministic_witness :
    (∀ (m : List ((Nat × Nat) × WatchedEntry)) (e : WatchedEntry) (k : Nat × Nat)
        (r : WatchedEntry), lookupKey k m = some r → e.watchedAt = none →
        lookupKey k (insertEntry m e) = some r) ∧
    (⟨1, 1, none⟩ : WatchedEntry) ∈ dedupeWatchedEntries [⟨1, 1, none⟩, ⟨1, 1, some 4⟩] ∧
    ∀ r ∈ dedupeWatchedEntries [⟨1, 1, none⟩, ⟨1, 1, some 4⟩],
      r.season = 1 → r.episode = 1 → r = ⟨1, 1, none⟩ :=
  dedupe_first_seen_deterministic [⟨1, 1, none⟩, ⟨1, 1, some 4⟩] 1 1 (by decide)
    ⟨1, 1, none⟩ [⟨1, 1, some 4⟩] (by decide)

/-- One episode row of a season listing (`seasonObj.episodes`); an absent or
`null` air date is modelled as `""`, which is falsy in the JS guards. -/
structure EpisodeData where
  episode_number : Nat
  air_date : String
deriving DecidableEq, Repr

/-- The `getSeasonDetails` payload. -/
structure SeasonDetail where
  episodes : List EpisodeData
deriving DecidableEq, Repr

/-- The `getTVShowDetails` payload; `number_of_seasons` may be absent, and the
code applies `|| 0`. -/
structure ShowDetail where
  name : String
  poster_path : Option String
  number_of_seasons : Option Nat
deriving DecidableEq, Repr

/-- The `getEpisodeDetails` payload; the 0–10 rating is an opaque numeral here
(no claim computes with it), absent ratings are `none` and the code applies
`|| 0`. -/
structure EpisodeDetail where
  name : String
  overview : String
  air_date : String
  still_path : Option String
  vote_average : Option Nat
deriving DecidableEq, Repr

/-- The TMDB catalog client: each fetch either yields a payload or throws
(`none`, for a 404/non-ok response). -/
structure Catalog where
  showDetails : Nat → Option ShowDetail
  seasonDetails : Nat → Nat → Option SeasonDetail
  episodeDetails : Nat → Nat → Nat → Option EpisodeDetail

/-- Insertion step of the ascending numeric sort `.sort((a, b) => a - b)`. -/
def insertSorted (n : Nat) : List Nat → List Nat
  | [] => [n]
  | m :: rest => if n ≤ m then n :: m :: rest else m :: insertSorted n rest

/-- Ascending numeric sort of the episode-number list. -/
def sortAsc (l : List Nat) : List Nat := l.foldr insertSorted []

theorem mem_insertSorted (n x : Nat) (l : List Nat) :
    x ∈ insertSorted n l ↔ x = n ∨ x ∈ l := by
  induction l with
  | nil => simp [insertSorted]
  | cons m rest ih =>
    by_cases h : n ≤ m
    · simp [insertSorted, h]
    · simp only [insertSorted, if_neg h, List.mem_cons, ih]
      tauto

theorem mem_sortAsc (x : Nat) (l : List Nat) : x ∈ sortAsc l ↔ x ∈ l := by
  induction l with
  | nil => simp [sortAsc]
  | cons m rest ih =>
    simp only [sortAsc, List.foldr_cons] at ih ⊢
    rw [mem_insertSorted, ih, List.mem_cons]

theorem insertSorted_pairwise (n : Nat) (l : List Nat)
    (h : l.Pairwise (· ≤ ·)) : (insertSorted n l).Pairwise (· ≤ ·) := by
  induction l with
  | nil => simp [insertSorted]
  | cons m rest ih =>
    rw [List.pairwise_cons] at h
    by_cases hle : n ≤ m
    · rw [insertSorted, if_pos hle, List.pairwise_cons]
      refine ⟨?_, List.pairwise_cons.2 h⟩
      intro x hx
      rcases List.mem_cons.1 hx with hx | hx
      · exact hx ▸ hle
      · exact le_trans hle (h.1 x hx)
    · rw [insertSorted, if_neg hle, List.pairwise_cons]
      refine ⟨?_, ih h.2⟩
      intro x hx
      rcases (mem_insertSorted n x rest).1 hx with hx | hx
      · exact hx ▸ le_of_not_le hle
      · exact h.1 x hx

theorem sortAsc_pairwise (l : List Nat) : (sortAsc l).Pairwise (· ≤ ·) := by
  induction l with
  | nil => simp [sortAsc]
  | cons m rest ih => exact insertSorted_pairwise m _ ih

/-- The `(season, episode)` pairs of a watch set — the JS `Set` of
`"S|E"` keys used for membership tests. -/
def watchedPairs (l : List WatchedEntry) : List (Nat × Nat) := l.map entryKey

/-- The inner episode loop: first episode number of the sorted listing whose
`(season, episode)` pair is not in the watched set. -/
def findGap (watched : List (Nat × Nat)) (sn : Nat) : List Nat → Option Nat
  | [] => none
  | n :: rest => if (sn, n) ∈ watched then findGap watched sn rest else some n

/-- The season numbers `1 .. total` walked in ascending order. -/
def seasonRange (total : Nat) : List Nat := (List.range total).map (· + 1)

/-- The resolver's result record. -/
structure FirstUnwatched where
  season : Nat
  episode : Nat
  episodeDetail : EpisodeDetail
deriving DecidableEq, Repr

/-- The season walk of `findFirstUnwatchedEpisode`: a 404ing season is
skipped (`continue`); in a fetched season the first unwatched episode is
resolved by an UNGUARDED `getEpisodeDetails` call, whose failure therefore
propagates (`Except.error`). -/
def walkSeasons (cat : Catalog) (showId : Nat) (watched : List (Nat × Nat)) :
    List Nat → Except Unit (Option FirstUnwatched)
  | [] => .ok none
  | sn :: rest =>
    match cat.seasonDetails showId sn with
    | none => walkSeasons cat showId watched rest
    | some seasonObj =>
      match findGap watched sn
          (sortAsc (seasonObj.episodes.map EpisodeData.episode_number)) with
      | none => walkSeasons cat showId watched rest
      | some epNum =>
        match cat.episodeDetails showId sn epNum with
        | none => .error ()
        | some d => .ok (some ⟨sn, epNum, d⟩)

/-- Function `findFirstUnwatchedEpisode`: fetch the show (failure propagates), then
walk seasons `1 .. number_of_seasons || 0`. -/
def findFirstUnwatchedEpisode (cat : Catalog) (showId : Nat)
    (deduped : List WatchedEntry) : Except Unit (Option FirstUnwatched) :=
  match cat.showDetails showId with
  | none => .error ()
  | some showDet =>
    walkSeasons cat showId (watchedPairs deduped)
      (seasonRange (showDet.number_of_seasons.getD 0))

/-- A season contributes no gap: every episode number it lists is watched
(vacuously true for a 404ing season). -/
def seasonNoGap (cat : Catalog) (showId : Nat) (watched : List (Nat × Nat))
    (sn : Nat) : Prop :=
  ∀ sd, cat.seasonDetails showId sn = some sd →
    ∀ n ∈ sd.episodes.map EpisodeData.episode_number, (sn, n) ∈ watched

theorem findGap_none_of (watched : List (Nat × Nat)) (sn : Nat) (l : List Nat)
    (h : ∀ n ∈ l, (sn, n) ∈ watched) : findGap watched sn l = none := by
  induction l with
  | nil => rfl
  | cons n rest ih =>
    rw [findGap, if_pos (h n (List.mem_cons_self _ _))]
    exact ih (fun m hm => h m (List.mem_cons_of_mem _ hm))

theorem findGap_none (watched : List (Nat × Nat)) (sn : Nat) (l : List Nat)
    (h : findGap watched sn l = none) : ∀ n ∈ l, (sn, n) ∈ watched := by
  induction l with
  | nil => simp
  | cons n rest ih =>
    intro m hm
    by_cases hw : (sn, n) ∈ watched
    · rw [findGap, if_pos hw] at h
      rcases List.mem_cons.1 hm with hm | hm
      · exact hm ▸ hw
      · exact ih h m hm
    · rw [findGap, if_neg hw] at h
      simp at h

theorem findGap_some_sorted (watched : List (Nat × Nat)) (sn : Nat) (l : List Nat)
    (n : Nat) (hsort : l.Pairwise (· ≤ ·)) (h : findGap watched sn l = some n) :
    n ∈ l ∧ (sn, n) ∉ watched ∧ ∀ m ∈ l, m < n → (sn, m) ∈ watched := by
  induction l with
  | nil => simp [findGap] at h
  | cons a rest ih =>
    rw [List.pairwise_cons] at hsort
    by_cases hw : (sn, a) ∈ watched
    · rw [findGap, if_pos hw] at h
      obtain ⟨h1, h2, h3⟩ := ih hsort.2 h
      refine ⟨List.mem_cons_of_mem _ h1, h2, ?_⟩
      intro m hm hlt
      rcases List.mem_cons.1 hm with hm | hm
      · exact hm ▸ hw
      · exact h3 m hm hlt
    · rw [findGap, if_neg hw] at h
      obtain rfl : a = n := by simpa using h
      refine ⟨List.mem_cons_self _ _, hw, ?_⟩
      intro m hm hlt
      rcases List.mem_cons.1 hm with hm | hm
      · exact absurd (hm ▸ hlt) (lt_irrefl _)
      · exact absurd hlt (not_lt_of_le (hsort.1 m hm))

theorem walkSeasons_ok_none_of (cat : Catalog) (showId : Nat)
    (watched : List (Nat × Nat)) (seasons : List Nat)
    (h : ∀ sn ∈ seasons, seasonNoGap cat showId watched sn) :
    walkSeasons cat showId watched seasons = .ok none := by
  induction seasons with
  | nil => rfl
  | cons sn rest ih =>
    have hrest := ih (fun s hs => h s (List.mem_cons_of_mem _ hs))
    cases hsd : cat.seasonDetails showId sn with
    | none => simpa [walkSeasons, hsd] using hrest
    | some sd =>
      have hgap : findGap watched sn
          (sortAsc (sd.episodes.map EpisodeData.episode_number)) = none := by
        refine findGap_none_of _ _ _ ?_
        intro n hn
        exact h sn (List.mem_cons_self _ _) sd hsd n ((mem_sortAsc n _).1 hn)
      simpa [walkSeasons, hsd, hgap] using hrest

theorem walkSeasons_ok_some (cat : Catalog) (showId : Nat)
    (watched : List (Nat × Nat)) (seasons : List Nat) (r : FirstUnwatched)
    (h : walkSeasons cat showId watched seasons = .ok (some r)) :
    ∃ pre post, seasons = pre ++ r.season :: post ∧
      (∀ sn ∈ pre, seasonNoGap cat showId watched sn) ∧
      ∃ sd, cat.seasonDetails showId r.season = some sd ∧
        cat.episodeDetails showId r.season r.episode = some r.episodeDetail ∧
        r.episode ∈ sd.episodes.map EpisodeData.episode_number ∧
        (r.season, r.episode) ∉ watched ∧
        ∀ n ∈ sd.episodes.map EpisodeData.episode_number,
          n < r.episode → (r.season, n) ∈ watched := by
  induction seasons with
  | nil => simp [walkSeasons] at h
  | cons sn rest ih =>
    cases hsd : cat.seasonDetails showId sn with
    | none =>
      simp only [walkSeasons, hsd] at h
      obtain ⟨pre, post, hsp, hpre, hrest⟩ := ih h
      refine ⟨sn :: pre, post, by rw [hsp]; rfl, ?_, hrest⟩
      intro s hs
      rcases List.mem_cons.1 hs with hs | hs
      · subst hs
        intro sd hsd'
        rw [hsd] at hsd'
        exact absurd hsd' (by simp)
      · exact hpre s hs
    | some sd =>
      simp only [walkSeasons, hsd] at h
      cases hgap : findGap watched sn
          (sortAsc (sd.episodes.map EpisodeData.episode_number)) with
      | none =>
        simp only [hgap] at h
        obtain ⟨pre, post, hsp, hpre, hrest⟩ := ih h
        refine ⟨sn :: pre, post, by rw [hsp]; rfl, ?_, hrest⟩
        intro s hs
        rcases List.mem_cons.1 hs with hs | hs
        · subst hs
          intro sd' hsd' n hn
          rw [hsd] at hsd'
          obtain rfl : sd = sd' := by simpa using hsd'
          exact findGap_none _ _ _ hgap n ((mem_sortAsc n _).2 hn)
        · exact hpre s hs
      | some epNum =>
        simp only [hgap] at h
        cases hep : cat.episodeDetails showId sn epNum with
        | none =>
          simp only [hep] at h
          exact absurd h (by simp)
        | some d =>
          simp only [hep] at h
          obtain rfl : (⟨sn, epNum, d⟩ : FirstUnwatched) = r := by simpa using h
          obtain ⟨hg1, hg2, hg3⟩ := findGap_some_sorted watched sn _ epNum
            (sortAsc_pairwise _) hgap
          refine ⟨[], rest, rfl, by simp, sd, hsd, hep,
            (mem_sortAsc _ _).1 hg1, hg2, ?_⟩
          intro n hn hlt
          exact hg3 n ((mem_sortAsc n _).2 hn) hlt

theorem mem_seasonRange (sn total : Nat) :
    sn ∈ seasonRange total ↔ 1 ≤ sn ∧ sn ≤ total := by
  simp only [seasonRange, List.mem_map, List.mem_range]
  constructor
  · rintro ⟨m, hm, rfl⟩
    omega
  · rintro ⟨h1, h2⟩
    exact ⟨sn - 1, by omega, by omega⟩

theorem seasonRange_pairwise (total : Nat) :
    (seasonRange total).Pairwise (· < ·) := by
  refine List.Pairwise.map _ ?_ (List.pairwise_lt_range total)
  intro a b hab
  omega

/-- C1: when a show with a non-empty normalized watch set resolves to an
episode, that episode is listed by the catalog inside the walked season range
`1 .. totalSeasons`, is absent from the watch set, and every catalog-listed
episode strictly before it (ascending seasons, ascending episode numbers
within a season) is in the watch set — the resolver returns the first gap and
never skips past an unwatched episode. -/
theorem findFirstUnwatched_first_gap (cat : Catalog) (showId : Nat)
    (deduped : List WatchedEntry) (det : ShowDetail) (r : FirstUnwatched)
    (_hne : deduped ≠ [])
    (hdet : cat.showDetails showId = some det)
    (hres : findFirstUnwatchedEpisode cat showId deduped = .ok (some r)) :
    (r.season ∈ seasonRange (det.number_of_seasons.getD 0) ∧
      ∃ sd, cat.seasonDetails showId r.season = some sd ∧
        r.episode ∈ sd.episodes.map EpisodeData.episode_number ∧
        cat.episodeDetails showId r.season r.episode = some r.episodeDetail) ∧
    (r.season, r.episode) ∉ watchedPairs deduped ∧
    ∀ sn ∈ seasonRange (det.number_of_seasons.getD 0),
      ∀ sd, cat.seasonDetails showId sn = some sd →
        ∀ n ∈ sd.episodes.map EpisodeData.episode_number,
          sn < r.season ∨ (sn = r.season ∧ n < r.episode) →
          (sn, n) ∈ watchedPairs deduped := by
  have hwalk : walkSeasons cat showId (watchedPairs deduped)
      (seasonRange (det.number_of_seasons.getD 0)) = .ok (some r) := by
    simpa [findFirstUnwatchedEpisode, hdet] using hres
  obtain ⟨pre, post, hsp, hpre, sd0, hsd0, hep0, hmem0, hnw0, hbefore0⟩ :=
    walkSeasons_ok_some _ _ _ _ _ hwalk
  refine ⟨⟨?_, sd0, hsd0, hmem0, hep0⟩, hnw0, ?_⟩
  · rw [hsp]
    exact List.mem_append_right _ (List.mem_cons_self _ _)
  · intro sn hsn sd hsd n hn hlt
    rcases hlt with hlt | ⟨rfl, hlt⟩
    · have hpair := seasonRange_pairwise (det.number_of_seasons.getD 0)
      rw [hsp, List.pairwise_append] at hpair
      have hsn' : sn ∈ pre := by
        rw [hsp] at hsn
        rcases List.mem_append.1 hsn with h | h
        · exact h
        · rcases List.mem_cons.1 h with h | h
          · exact absurd (h ▸ hlt) (lt_irrefl _)
          · have hgt : r.season < sn := (List.pairwise_cons.1 hpair.2.1).1 sn h
            exact absurd hlt (lt_asymm hgt)
      exact hpre sn hsn' sd hsd n hn
    · rw [hsd0] at hsd
      obtain rfl : sd0 = sd := by simpa using hsd
      exact hbefore0 n hn hlt

/-- A concrete two-season catalog for the C1 witness. -/
def catW : Catalog where
  showDetails := fun id =>
    if id = 1 then some { name := "W", poster_path := none, number_of_seasons := some 2 }
    else none
  seasonDetails := fun id sn =>
    if id = 1 ∧ sn = 1 then
      some { episodes := [{ episode_number := 1, air_date := "2020-01-01" },
                          { episode_number := 2, air_date := "2020-01-08" }] }
    else if id = 1 ∧ sn = 2 then
      some { episodes := [{ episode_number := 1, air_date := "2021-01-01" }] }
    else none
  episodeDetails := fun id _ _ =>
    if id = 1 then
      some { name := "t", overview := "o", air_date := "2020-02-01", still_path := none,
             vote_average := some 7 }
    else none

/-- The episode record `catW` serves for every episode of show 1. -/
def dW : EpisodeDetail :=
  { name := "t", overview := "o", air_date := "2020-02-01", still_path := none,
    vote_average := some 7 }

/-- The resolver's result on `catW` with S1E1 watched. -/
def rW : FirstUnwatched := { season := 1, episode := 2, episodeDetail := dW }

/-- Witness for C1: with S1E1 watched on `catW`, the resolver returns S1E2,
which satisfies all three first-gap properties. -/
theorem findFirstUnwatched_first_gap_witness :
    (rW.season ∈ seasonRange 2 ∧
      ∃ sd, catW.seasonDetails 1 rW.season = some sd ∧
        rW.episode ∈ sd.episodes.map EpisodeData.episode_number ∧
        catW.episodeDetails 1 rW.season rW.episode = some rW.episodeDetail) ∧
    (rW.season, rW.episode) ∉ watchedPairs [⟨1, 1, some 100⟩] ∧
    ∀ sn ∈ seasonRange 2,
      ∀ sd, catW.seasonDetails 1 sn = some sd →
        ∀ n ∈ sd.episodes.map EpisodeData.episode_number,
          sn < rW.season ∨ (sn = rW.season ∧ n < rW.episode) →
          (sn, n) ∈ watchedPairs [⟨1, 1, some 100⟩] :=
  findFirstUnwatched_first_gap catW 1 [⟨1, 1, some 100⟩]
    { name := "W", poster_path := none, number_of_seasons := some 2 } rW
    (by simp) rfl rfl

/-- A catalog whose episode-details endpoint always fails. -/
def catC3 : Catalog where
  showDetails := fun id =>
    if id = 1 then some { name := "C", poster_path := none, number_of_seasons := some 1 }
    else none
  seasonDetails := fun id sn =>
    if id = 1 ∧ sn = 1 then some { episodes := [{ episode_number := 1, air_date := "" }] }
    else none
  episodeDetails := fun _ _ _ => none

/-- Counterexample to C3 as stated: the season fetch succeeds, the episode
fetch for the found gap fails, and the resolver propagates a fatal error
instead of swallowing it. -/
theorem resolver_episode_failure_fatal_cex :
    catC3.seasonDetails 1 1 =
      some { episodes := [{ episode_number := 1, air_date := "" }] } ∧
    catC3.episodeDetails 1 1 1 = none ∧
    findFirstUnwatchedEpisode catC3 1 [⟨1, 2, some 10⟩] = .error () :=
  ⟨rfl, rfl, rfl⟩

/-- C3 amended: a season-details failure is swallowed — the walk continues
with the remaining seasons exactly as if the season were absent; but the
episode-details fetch for the found gap episode is unguarded, so its failure
propagates out of the resolver as a fatal error. -/
theorem season_failures_swallowed_episode_failure_fatal :
    (∀ (cat : Catalog) (showId : Nat) (watched : List (Nat × Nat)) (sn : Nat)
        (rest : List Nat), cat.seasonDetails showId sn = none →
        walkSeasons cat showId watched (sn :: rest) =
          walkSeasons cat showId watched rest) ∧
    (∀ (cat : Catalog) (showId : Nat) (watched : List (Nat × Nat)) (sn : Nat)
        (rest : List Nat) (sd : SeasonDetail) (n : Nat),
        cat.seasonDetails showId sn = some sd →
        findGap watched sn (sortAsc (sd.episodes.map EpisodeData.episode_number)) = some n →
        cat.episodeDetails showId sn n = none →
        walkSeasons cat showId watched (sn :: rest) = .error ()) := by
  constructor
  · intro cat showId watched sn rest h
    simp [walkSeasons, h]
  · intro cat showId watched sn rest sd n hsd hgap hep
    simp [walkSeasons, hsd, hgap, hep]

/-- Witness for the amended C3 on `catC3`: season 5 404s and is skipped;
season 1 finds its gap at episode 1 whose details fetch fails fatally. -/
theorem season_failures_swallowed_episode_failure_fatal_witness :
    walkSeasons catC3 1 [(1, 2)] (5 :: [1]) = walkSeasons catC3 1 [(1, 2)] [1] ∧
    walkSeasons catC3 1 [(1, 2)] (1 :: []) = .error () :=
  ⟨season_failures_swallowed_episode_failure_fatal.1 catC3 1 [(1, 2)] 5 [1] rfl,
   season_failures_swallowed_episode_failure_fatal.2 catC3 1 [(1, 2)] 1 []
     { episodes := [{ episode_number := 1, air_date := "" }] } 1 rfl rfl rfl⟩

/-- The display record pushed into the Next / A-While / Not-Started lists. -/
structure EpisodeInfo where
  showId : Nat
  showName : String
  poster_path : Option String
  season : Nat
  episode : Nat
  label : String
  episodeTitle : String
  episodeOverview : String
  air_date : String
  still_path : Option String
  vote_average : Nat
deriving DecidableEq, Repr

/-- The label string `S<season> E<episode>`. -/
def epiLabel (season episode : Nat) : String :=
  "S" ++ toString season ++ " E" ++ toString episode

/-- The `EpisodeInfo` record the build effect constructs from show details
and episode details. -/
def mkEpisodeInfo (showId : Nat) (showDet : ShowDetail) (season episode : Nat)
    (epDet : EpisodeDetail) : EpisodeInfo :=
  { showId := showId
    showName := showDet.name
    poster_path := showDet.poster_path
    season := season
    episode := episode
    label := epiLabel season episode
    episodeTitle := epDet.name
    episodeOverview := epDet.overview
    air_date := epDet.air_date
    still_path := epDet.still_path
    vote_average := epDet.vote_average.getD 0 }

/-- One show's contribution to the three watch-list buckets. -/
inductive ShowOutcome where
  | notStarted (info : EpisodeInfo)
  | skipped
  | next (info : EpisodeInfo)
  | stale (info : EpisodeInfo)
deriving DecidableEq, Repr

/-- Model of `uniqueEntries.sort((a, b) => timeB - timeA)[0]`: the first entry (in
original order, JS sort being stable) holding the maximal parsed timestamp —
the same first-wins strict-replacement fold as `pickLatest`. -/
def latestOf (l : List WatchedEntry) : Option WatchedEntry :=
  l.foldl pickLatest none

/-- The per-show body of the watch-list build loop.  The empty-watch-set
branch has its own try/catch (any fetch failure skips the show); the
non-empty branch calls the resolver and `getTVShowDetails` UNGUARDED, so
their failures escape to the loop's single outer catch. -/
def resolveShow (cat : Catalog) (thirtyDaysAgo : Int) (showId : Nat)
    (rawEntries : List WatchedEntry) : Except Unit ShowOutcome :=
  let uniqueEntries := dedupeWatchedEntries rawEntries
  if uniqueEntries.isEmpty then
    match cat.episodeDetails showId 1 1, cat.showDetails showId with
    | some epDet, some showDet =>
      .ok (.notStarted (mkEpisodeInfo showId showDet 1 1 epDet))
    | _, _ => .ok .skipped
  else
    match findFirstUnwatchedEpisode cat showId uniqueEntries with
    | .error e => .error e
    | .ok none => .ok .skipped
    | .ok (some fu) =>
      match cat.showDetails showId with
      | none => .error ()
      | some showDet =>
        match latestOf uniqueEntries with
        | none => .ok .skipped
        | some latest =>
          if jsDateGt latest.watchedAt (some thirtyDaysAgo) then
            .ok (.next (mkEpisodeInfo showId showDet fu.season fu.episode fu.episodeDetail))
          else
            .ok (.stale (mkEpisodeInfo showId showDet fu.season fu.episode fu.episodeDetail))

/-- The three bucket arrays of the watch-list build. -/
structure BuildResult where
  next : List EpisodeInfo
  aWhile : List EpisodeInfo
  notStarted : List EpisodeInfo
deriving DecidableEq, Repr

/-- Push one show's outcome onto the bucket arrays. -/
def applyOutcome (acc : BuildResult) : ShowOutcome → BuildResult
  | .next info => { acc with next := acc.next ++ [info] }
  | .stale info => { acc with aWhile := acc.aWhile ++ [info] }
  | .notStarted info => { acc with notStarted := acc.notStarted ++ [info] }
  | .skipped => acc

/-- The sequential `for (const showId of onboardedIds)` loop; a propagated
per-show failure aborts the remainder (the try/catch sits OUTSIDE the loop,
so no bucket state is published at all on failure). -/
def buildGo (cat : Catalog) (thirtyDaysAgo : Int) (wm : Nat → List WatchedEntry) :
    List Nat → BuildResult → Except Unit BuildResult
  | [], acc => .ok acc
  | showId :: rest, acc =>
    match resolveShow cat thirtyDaysAgo showId (wm showId) with
    | .error e => .error e
    | .ok outcome => buildGo cat thirtyDaysAgo wm rest (applyOutcome acc outcome)

/-- The value `30 * 24 * 60 * 60 * 1000` — the 30-day window in milliseconds. -/
def msPerThirtyDays : Int := 30 * 24 * 60 * 60 * 1000

/-- The watch-list build effect: `thirtyDaysAgo` is `now` minus 30 days
(the code serialises it to ISO and reparses it, which round-trips exactly at
millisecond precision). -/
def buildWatchLists (cat : Catalog) (nowMs : Int) (onboardedIds : List Nat)
    (wm : Nat → List WatchedEntry) : Except Unit BuildResult :=
  buildGo cat (nowMs - msPerThirtyDays) wm onboardedIds ⟨[], [], []⟩

theorem resolveShow_cases (cat : Catalog) (t : Int) (id : Nat)
    (raw : List WatchedEntry) (o : ShowOutcome)
    (h : resolveShow cat t id raw = .ok o) :
    o = .skipped ∨
    (∃ ep det, cat.episodeDetails id 1 1 = some ep ∧ cat.showDetails id = some det ∧
        o = .notStarted (mkEpisodeInfo id det 1 1 ep)) ∨
    (∃ (fu : FirstUnwatched) (det : ShowDetail), cat.showDetails id = some det ∧
        (o = .next (mkEpisodeInfo id det fu.season fu.episode fu.episodeDetail) ∨
         o = .stale (mkEpisodeInfo id det fu.season fu.episode fu.episodeDetail))) := by
  cases hd : dedupeWatchedEntries raw with
  | nil =>
    have hemp : (dedupeWatchedEntries raw).isEmpty = true := by rw [hd]; rfl
    simp only [resolveShow, hemp, eq_self_iff_true, if_true] at h
    cases hep : cat.episodeDetails id 1 1 with
    | none =>
      simp only [hep, Except.ok.injEq] at h
      exact Or.inl h.symm
    | some ep =>
      cases hdet : cat.showDetails id with
      | none =>
        simp only [hep, hdet, Except.ok.injEq] at h
        exact Or.inl h.symm
      | some det =>
        simp only [hep, hdet, Except.ok.injEq] at h
        exact Or.inr (Or.inl ⟨ep, det, rfl, rfl, h.symm⟩)
  | cons a l =>
    have hemp : (dedupeWatchedEntries raw).isEmpty = false := by rw [hd]; rfl
    simp only [resolveShow, hemp, Bool.false_eq_true, if_false] at h
    cases hfu : findFirstUnwatchedEpisode cat id (dedupeWatchedEntries raw) with
    | error e => simp [hfu] at h
    | ok v =>
      simp only [hfu] at h
      cases v with
      | none =>
        simp only [Except.ok.injEq] at h
        exact Or.inl h.symm
      | some fu =>
        cases hdet : cat.showDetails id with
        | none => simp [hdet] at h
        | some det =>
          simp only [hdet] at h
          cases hlat : latestOf (dedupeWatchedEntries raw) with
          | none =>
            simp only [hlat, Except.ok.injEq] at h
            exact Or.inl h.symm
          | some latest =>
            simp only [hlat] at h
            cases hgt : jsDateGt latest.watchedAt (some t) with
            | true =>
              simp only [hgt, eq_self_iff_true, if_true, Except.ok.injEq] at h
              exact Or.inr (Or.inr ⟨fu, det, rfl, Or.inl h.symm⟩)
            | false =>
              simp only [hgt, Bool.false_eq_true, if_false, Except.ok.injEq] at h
              exact Or.inr (Or.inr ⟨fu, det, rfl, Or.inr h.symm⟩)

theorem resolveShow_ok_showId (cat : Catalog) (t : Int) (id : Nat)
    (raw : List WatchedEntry) (o : ShowOutcome) (info : EpisodeInfo)
    (h : resolveShow cat t id raw = .ok o)
    (ho : o = .next info ∨ o = .stale info ∨ o = .notStarted info) :
    info.showId = id := by
  rcases resolveShow_cases cat t id raw o h with h1 | ⟨ep, det, _, _, h1⟩ |
    ⟨fu, det, _, h1 | h1⟩ <;> subst h1 <;>
    rcases ho with ho | ho | ho <;> cases ho <;> rfl

theorem buildGo_mem_next (cat : Catalog) (t : Int) (wm : Nat → List WatchedEntry)
    (ids : List Nat) (acc res : BuildResult) (info : EpisodeInfo)
    (h : buildGo cat t wm ids acc = .ok res) (hmem : info ∈ res.next) :
    info ∈ acc.next ∨ ∃ id ∈ ids, resolveShow cat t id (wm id) = .ok (.next info) := by
  induction ids generalizing acc with
  | nil =>
    simp only [buildGo, Except.ok.injEq] at h
    exact Or.inl (h ▸ hmem)
  | cons id rest ih =>
    cases hres : resolveShow cat t id (wm id) with
    | error e => simp [buildGo, hres] at h
    | ok outcome =>
      simp only [buildGo, hres] at h
      rcases ih _ h with hacc | ⟨id', hid', hres'⟩
      · cases outcome with
        | skipped => exact Or.inl hacc
        | notStarted i => exact Or.inl hacc
        | stale i => exact Or.inl hacc
        | next i =>
          simp only [applyOutcome, List.mem_append, List.mem_singleton] at hacc
          rcases hacc with hacc | rfl
          · exact Or.inl hacc
          · exact Or.inr ⟨id, List.mem_cons_self _ _, hres⟩
      · exact Or.inr ⟨id', List.mem_cons_of_mem _ hid', hres'⟩

theorem buildGo_mem_aWhile (cat : Catalog) (t : Int) (wm : Nat → List WatchedEntry)
    (ids : List Nat) (acc res : BuildResult) (info : EpisodeInfo)
    (h : buildGo cat t wm ids acc = .ok res) (hmem : info ∈ res.aWhile) :
    info ∈ acc.aWhile ∨ ∃ id ∈ ids, resolveShow cat t id (wm id) = .ok (.stale info) := by
  induction ids generalizing acc with
  | nil =>
    simp only [buildGo, Except.ok.injEq] at h
    exact Or.inl (h ▸ hmem)
  | cons id rest ih =>
    cases hres : resolveShow cat t id (wm id) with
    | error e => simp [buildGo, hres] at h
    | ok outcome =>
      simp only [buildGo, hres] at h
      rcases ih _ h with hacc | ⟨id', hid', hres'⟩
      · cases outcome with
        | skipped => exact Or.inl hacc
        | notStarted i => exact Or.inl hacc
        | next i => exact Or.inl hacc
        | stale i =>
          simp only [applyOutcome, List.mem_append, List.mem_singleton] at hacc
          rcases hacc with hacc | rfl
          · exact Or.inl hacc
          · exact Or.inr ⟨id, List.mem_cons_self _ _, hres⟩
      · exact Or.inr ⟨id', List.mem_cons_of_mem _ hid', hres'⟩

theorem buildGo_mem_notStarted (cat : Catalog) (t : Int) (wm : Nat → List WatchedEntry)
    (ids : List Nat) (acc res : BuildResult) (info : EpisodeInfo)
    (h : buildGo cat t wm ids acc = .ok res) (hmem : info ∈ res.notStarted) :
    info ∈ acc.notStarted ∨
      ∃ id ∈ ids, resolveShow cat t id (wm id) = .ok (.notStarted info) := by
  induction ids generalizing acc with
  | nil =>
    simp only [buildGo, Except.ok.injEq] at h
    exact Or.inl (h ▸ hmem)
  | cons id rest ih =>
    cases hres : resolveShow cat t id (wm id) with
    | error e => simp [buildGo, hres] at h
    | ok outcome =>
      simp only [buildGo, hres] at h
      rcases ih _ h with hacc | ⟨id', hid', hres'⟩
      · cases outcome with
        | skipped => exact Or.inl hacc
        | next i => exact Or.inl hacc
        | stale i => exact Or.inl hacc
        | notStarted i =>
          simp only [applyOutcome, List.mem_append, List.mem_singleton] at hacc
          rcases hacc with hacc | rfl
          · exact Or.inl hacc
          · exact Or.inr ⟨id, List.mem_cons_self _ _, hres⟩
      · exact Or.inr ⟨id', List.mem_cons_of_mem _ hid', hres'⟩

theorem buildGo_ok_of (cat : Catalog) (t : Int) (wm : Nat → List WatchedEntry)
    (ids : List Nat) (acc : BuildResult)
    (h : ∀ id ∈ ids, ∃ o, resolveShow cat t id (wm id) = .ok o) :
    ∃ res, buildGo cat t wm ids acc = .ok res := by
  induction ids generalizing acc with
  | nil => exact ⟨acc, rfl⟩
  | cons id rest ih =>
    obtain ⟨o, ho⟩ := h id (List.mem_cons_self _ _)
    obtain ⟨res, hres⟩ := ih (applyOutcome acc o)
      (fun i hi => h i (List.mem_cons_of_mem _ hi))
    exact ⟨res, by simp only [buildGo, ho]; exact hres⟩

theorem buildGo_error_of (cat : Catalog) (t : Int) (wm : Nat → List WatchedEntry)
    (ids : List Nat) (acc : BuildResult)
    (h : ∃ id ∈ ids, resolveShow cat t id (wm id) = .error ()) :
    buildGo cat t wm ids acc = .error () := by
  induction ids generalizing acc with
  | nil => simp at h
  | cons id rest ih =>
    obtain ⟨i, hi, herr⟩ := h
    cases hres : resolveShow cat t id (wm id) with
    | error e =>
      cases e
      simp [buildGo, hres]
    | ok outcome =>
      rcases List.mem_cons.1 hi with rfl | hi'
      · rw [hres] at herr
        exact absurd herr (by simp)
      · simp only [buildGo, hres]
        exact ih _ ⟨i, hi', herr⟩

theorem build_excludes_skipped (cat : Catalog) (nowMs : Int) (ids : List Nat)
    (wm : Nat → List WatchedEntry) (res : BuildResult) (showId : Nat)
    (hskip : resolveShow cat (nowMs - msPerThirtyDays) showId (wm showId) = .ok .skipped)
    (hbuild : buildWatchLists cat nowMs ids wm = .ok res) :
    ∀ info ∈ res.next ++ res.aWhile ++ res.notStarted, info.showId ≠ showId := by
  intro info hinfo heq
  rcases List.mem_append.1 hinfo with hfront | hns
  · rcases List.mem_append.1 hfront with hinfo' | hinfo'
    · rcases buildGo_mem_next _ _ _ _ _ _ _ hbuild hinfo' with hacc | ⟨id, _, hres⟩
      · simp at hacc
      · have hid : info.showId = id :=
          resolveShow_ok_showId _ _ _ _ _ _ hres (Or.inl rfl)
        rw [hid.symm.trans heq, hskip] at hres
        simp at hres
    · rcases buildGo_mem_aWhile _ _ _ _ _ _ _ hbuild hinfo' with hacc | ⟨id, _, hres⟩
      · simp at hacc
      · have hid : info.showId = id :=
          resolveShow_ok_showId _ _ _ _ _ _ hres (Or.inr (Or.inl rfl))
        rw [hid.symm.trans heq, hskip] at hres
        simp at hres
  · rcases buildGo_mem_notStarted _ _ _ _ _ _ _ hbuild hns with hacc | ⟨id, _, hres⟩
    · simp at hacc
    · have hid : info.showId = id :=
        resolveShow_ok_showId _ _ _ _ _ _ hres (Or.inr (Or.inr rfl))
      rw [hid.symm.trans heq, hskip] at hres
      simp at hres

/-- C6: when every episode listed by the catalog across the walked seasons is
in the normalized watch set of a show with a non-empty set, the resolver
returns "all watched" (`ok none`, the code's Complete with a null next
episode), the show's loop outcome is skipped, and no bucket of a successful
build holds an `EpisodeInfo` of that show. -/
theorem complete_show_excluded (cat : Catalog) (nowMs : Int) (showId : Nat)
    (det : ShowDetail) (wm : Nat → List WatchedEntry) (ids : List Nat)
    (res : BuildResult)
    (hdet : cat.showDetails showId = some det)
    (hne : dedupeWatchedEntries (wm showId) ≠ [])
    (hall : ∀ sn ∈ seasonRange (det.number_of_seasons.getD 0),
      seasonNoGap cat showId (watchedPairs (dedupeWatchedEntries (wm showId))) sn)
    (hbuild : buildWatchLists cat nowMs ids wm = .ok res) :
    findFirstUnwatchedEpisode cat showId (dedupeWatchedEntries (wm showId)) = .ok none ∧
    resolveShow cat (nowMs - msPerThirtyDays) showId (wm showId) = .ok .skipped ∧
    ∀ info ∈ res.next ++ res.aWhile ++ res.notStarted, info.showId ≠ showId := by
  have hfu : findFirstUnwatchedEpisode cat showId (dedupeWatchedEntries (wm showId)) =
      .ok none := by
    simp only [findFirstUnwatchedEpisode, hdet]
    exact walkSeasons_ok_none_of _ _ _ _ hall
  have hskip : resolveShow cat (nowMs - msPerThirtyDays) showId (wm showId) =
      .ok .skipped := by
    cases hd : dedupeWatchedEntries (wm showId) with
    | nil => exact absurd hd hne
    | cons a l =>
      have hemp : (dedupeWatchedEntries (wm showId)).isEmpty = false := by rw [hd]; rfl
      simp only [resolveShow, hemp, Bool.false_eq_true, if_false, hfu]
  exact ⟨hfu, hskip, build_excludes_skipped _ _ _ _ _ _ hskip hbuild⟩

/-- A one-season, one-episode catalog whose only episode is watched. -/
def catC6 : Catalog where
  showDetails := fun id =>
    if id = 1 then some { name := "F", poster_path := none, number_of_seasons := some 1 }
    else none
  seasonDetails := fun id sn =>
    if id = 1 ∧ sn = 1 then
      some { episodes := [{ episode_number := 1, air_date := "2020-01-01" }] }
    else none
  episodeDetails := fun id _ _ =>
    if id = 1 then
      some { name := "t", overview := "o", air_date := "2020-02-01", still_path := none,
             vote_average := some 7 }
    else none

/-- Witness for C6 on `catC6` with its single episode watched. -/
theorem complete_show_excluded_witness :
    findFirstUnwatchedEpisode catC6 1 (dedupeWatchedEntries [⟨1, 1, some 100⟩]) =
      .ok none ∧
    resolveShow catC6 ((0 : Int) - msPerThirtyDays) 1 [⟨1, 1, some 100⟩] = .ok .skipped ∧
    ∀ info ∈ (BuildResult.mk [] [] []).next ++ (BuildResult.mk [] [] []).aWhile ++
        (BuildResult.mk [] [] []).notStarted, info.showId ≠ 1 :=
  complete_show_excluded catC6 0 1
    { name := "F", poster_path := none, number_of_seasons := some 1 }
    (fun _ => [⟨1, 1, some 100⟩]) [1] (BuildResult.mk [] [] []) rfl (by decide)
    (by
      intro sn hsn sd hsd n hn
      have hsn1 : 1 = sn := by simpa [seasonRange] using hsn
      subst hsn1
      have hsd' : ({ episodes := [{ episode_number := 1, air_date := "2020-01-01" }] } :
          SeasonDetail) = sd := by
        simpa [catC6] using hsd
      subst hsd'
      have hn1 : n = 1 := by simpa using hn
      subst hn1
      decide)
    rfl

/-- C7: a show with an empty normalized watch set resolves to Not-Started at
season 1 episode 1 when the catalog has S1E1 (and the show details fetch
succeeds); when the catalog 404s S1E1, the show's outcome is skipped without
error and the show appears in no bucket of a successful build. -/
theorem not_started_or_skipped (cat : Catalog) (nowMs : Int) (showId : Nat)
    (raw : List WatchedEntry) (hempty : dedupeWatchedEntries raw = []) :
    (∀ ep det, cat.episodeDetails showId 1 1 = some ep →
       cat.showDetails showId = some det →
       resolveShow cat (nowMs - msPerThirtyDays) showId raw =
         .ok (.notStarted (mkEpisodeInfo showId det 1 1 ep)) ∧
       (mkEpisodeInfo showId det 1 1 ep).season = 1 ∧
       (mkEpisodeInfo showId det 1 1 ep).episode = 1) ∧
    (cat.episodeDetails showId 1 1 = none →
       resolveShow cat (nowMs - msPerThirtyDays) showId raw = .ok .skipped ∧
       ∀ (ids : List Nat) (wm : Nat → List WatchedEntry) (res : BuildResult),
         wm showId = raw → buildWatchLists cat nowMs ids wm = .ok res →
         ∀ info ∈ res.next ++ res.aWhile ++ res.notStarted, info.showId ≠ showId) := by
  have hemp : (dedupeWatchedEntries raw).isEmpty = true := by rw [hempty]; rfl
  constructor
  · intro ep det hep hdet
    refine ⟨?_, rfl, rfl⟩
    simp only [resolveShow, hemp, eq_self_iff_true, if_true, hep, hdet]
  · intro hep
    have hskip : resolveShow cat (nowMs - msPerThirtyDays) showId raw = .ok .skipped := by
      simp only [resolveShow, hemp, eq_self_iff_true, if_true, hep]
    refine ⟨hskip, ?_⟩
    intro ids wm res hwm hbuild
    have hskip' : resolveShow cat (nowMs - msPerThirtyDays) showId (wm showId) =
        .ok .skipped := by rw [hwm]; exact hskip
    exact build_excludes_skipped _ _ _ _ _ _ hskip' hbuild

/-- A catalog with a show whose S1E1 episode details 404. -/
def catC7 : Catalog where
  showDetails := fun id =>
    if id = 1 then some { name := "N", poster_path := none, number_of_seasons := some 1 }
    else none
  seasonDetails := fun _ _ => none
  episodeDetails := fun _ _ _ => none

/-- Witness for C7: on `catW` an unstarted show lands in Not-Started at S1E1;
on `catC7` (no S1E1) it is skipped and excluded from all buckets of a
successful build. -/
theorem not_started_or_skipped_witness :
    resolveShow catW ((0 : Int) - msPerThirtyDays) 1 [] =
      .ok (.notStarted (mkEpisodeInfo 1
        { name := "W", poster_path := none, number_of_seasons := some 2 } 1 1 dW)) ∧
    resolveShow catC7 ((0 : Int) - msPerThirtyDays) 1 [] = .ok .skipped ∧
    ∀ info ∈ (BuildResult.mk [] [] []).next ++ (BuildResult.mk [] [] []).aWhile ++
        (BuildResult.mk [] [] []).notStarted, info.showId ≠ 1 :=
  ⟨((not_started_or_skipped catW 0 1 [] rfl).1 dW
      { name := "W", poster_path := none, number_of_seasons := some 2 } rfl rfl).1,
   ((not_started_or_skipped catC7 0 1 [] rfl).2 rfl).1,
   ((not_started_or_skipped catC7 0 1 [] rfl).2 rfl).2 [1] (fun _ => [])
     (BuildResult.mk [] [] []) rfl rfl⟩

/-- Counterexample to C2 as stated: with the most recent watch exactly 30
days before evaluation time (watchedAt `100`, now `2592000100`, window
`2592000000` ms), the show lands in the A-While (Stale) bucket, not Next —
the boundary is exclusive on the "within" side. -/
theorem thirty_day_boundary_cex :
    (some (100 : Int) = some ((2592000100 : Int) - msPerThirtyDays)) ∧
    buildWatchLists catW 2592000100 [1] (fun _ => [⟨1, 1, some 100⟩]) =
      .ok { next := [],
            aWhile := [mkEpisodeInfo 1
              { name := "W", poster_path := none, number_of_seasons := some 2 } 1 2 dW],
            notStarted := [] } :=
  ⟨by decide, rfl⟩

/-- C2 amended: when the resolver finds a gap, the show is categorized Next
exactly when the most recent watch is STRICTLY more recent than 30 days
before evaluation time; at exactly 30 days (or older, or later than that
by any amount short of strict) it is categorized Stale — the "within"
boundary is exclusive, not inclusive. -/
theorem thirty_day_boundary_amended (cat : Catalog) (nowMs : Int) (showId : Nat)
    (raw : List WatchedEntry) (fu : FirstUnwatched) (det : ShowDetail)
    (latest : WatchedEntry) (v : Int)
    (hgap : findFirstUnwatchedEpisode cat showId (dedupeWatchedEntries raw) =
      .ok (some fu))
    (hdet : cat.showDetails showId = some det)
    (hlatest : latestOf (dedupeWatchedEntries raw) = some latest)
    (hv : latest.watchedAt = some v) :
    (nowMs - msPerThirtyDays < v →
      resolveShow cat (nowMs - msPerThirtyDays) showId raw =
        .ok (.next (mkEpisodeInfo showId det fu.season fu.episode fu.episodeDetail))) ∧
    (v ≤ nowMs - msPerThirtyDays →
      resolveShow cat (nowMs - msPerThirtyDays) showId raw =
        .ok (.stale (mkEpisodeInfo showId det fu.season fu.episode fu.episodeDetail))) := by
  have hne : dedupeWatchedEntries raw ≠ [] := by
    intro h
    rw [h] at hlatest
    simp [latestOf] at hlatest
  cases hd : dedupeWatchedEntries raw with
  | nil => exact absurd hd hne
  | cons a l =>
    have hemp : (dedupeWatchedEntries raw).isEmpty = false := by rw [hd]; rfl
    constructor
    · intro hlt
      have hgt : jsDateGt latest.watchedAt (some (nowMs - msPerThirtyDays)) = true := by
        rw [hv]
        simp only [jsDateGt]
        exact decide_eq_true hlt
      simp only [resolveShow, hemp, Bool.false_eq_true, if_false, hgap, hdet, hlatest,
        hgt, eq_self_iff_true, if_true]
    · intro hle
      have hgt : jsDateGt latest.watchedAt (some (nowMs - msPerThirtyDays)) = false := by
        rw [hv]
        simp only [jsDateGt]
        exact decide_eq_false (not_lt_of_le hle)
      simp only [resolveShow, hemp, Bool.false_eq_true, if_false, hgap, hdet, hlatest,
        hgt, if_false]

/-- Witness for the amended C2: strictly within the window lands in Next;
exactly on the boundary lands in Stale. -/
theorem thirty_day_boundary_amended_witness :
    resolveShow catW ((2592000200 : Int) - msPerThirtyDays) 1 [⟨1, 1, some 300⟩] =
      .ok (.next (mkEpisodeInfo 1
        { name := "W", poster_path := none, number_of_seasons := some 2 } 1 2 dW)) ∧
    resolveShow catW ((2592000100 : Int) - msPerThirtyDays) 1 [⟨1, 1, some 100⟩] =
      .ok (.stale (mkEpisodeInfo 1
        { name := "W", poster_path := none, number_of_seasons := some 2 } 1 2 dW)) :=
  ⟨(thirty_day_boundary_amended catW 2592000200 1 [⟨1, 1, some 300⟩]
      { season := 1, episode := 2, episodeDetail := dW }
      { name := "W", poster_path := none, number_of_seasons := some 2 }
      ⟨1, 1, some 300⟩ 300 rfl rfl rfl rfl).1 (by decide),
   (thirty_day_boundary_amended catW 2592000100 1 [⟨1, 1, some 100⟩]
      { season := 1, episode := 2, episodeDetail := dW }
      { name := "W", poster_path := none, number_of_seasons := some 2 }
      ⟨1, 1, some 100⟩ 100 rfl rfl rfl rfl).2 (by decide)⟩

/-- Counterexample to C4 as stated: alone, show 1 produces a Next-bucket
entry; adding show 2, whose show-details fetch fails while it has a non-empty
watch log, makes the whole build fail — show 1's bucket result is gone, not
"unchanged and present". -/
theorem show_failure_aborts_build_cex :
    buildWatchLists catW 2592000200 [1] (fun _ => [⟨1, 1, some 300⟩]) =
      .ok { next := [mkEpisodeInfo 1
              { name := "W", poster_path := none, number_of_seasons := some 2 } 1 2 dW],
            aWhile := [], notStarted := [] } ∧
    catW.showDetails 2 = none ∧
    buildWatchLists catW 2592000200 [1, 2] (fun _ => [⟨1, 1, some 300⟩]) = .error () :=
  ⟨rfl, rfl, rfl⟩

/-- C4 amended: shows with empty watch sets are failure-isolated (their
branch always yields an outcome); and the whole build succeeds when every
show's loop body succeeds; but one failing show with a non-empty watch set
aborts the entire build — no bucket results are published for any show. -/
theorem per_show_failure_aborts_build (cat : Catalog) (nowMs : Int)
    (wm : Nat → List WatchedEntry) (ids : List Nat) :
    (∀ (id : Nat) (raw : List WatchedEntry), dedupeWatchedEntries raw = [] →
       ∃ o, resolveShow cat (nowMs - msPerThirtyDays) id raw = .ok o) ∧
    ((∀ id ∈ ids, ∃ o, resolveShow cat (nowMs - msPerThirtyDays) id (wm id) = .ok o) →
       ∃ res, buildWatchLists cat nowMs ids wm = .ok res) ∧
    ((∃ id ∈ ids, resolveShow cat (nowMs - msPerThirtyDays) id (wm id) = .error ()) →
       buildWatchLists cat nowMs ids wm = .error ()) := by
  refine ⟨?_, ?_, ?_⟩
  · intro id raw h
    have hemp : (dedupeWatchedEntries raw).isEmpty = true := by rw [h]; rfl
    cases hep : cat.episodeDetails id 1 1 with
    | none =>
      exact ⟨.skipped, by simp only [resolveShow, hemp, eq_self_iff_true, if_true, hep]⟩
    | some ep =>
      cases hdet : cat.showDetails id with
      | none =>
        exact ⟨.skipped,
          by simp only [resolveShow, hemp, eq_self_iff_true, if_true, hep, hdet]⟩
      | some det =>
        exact ⟨.notStarted (mkEpisodeInfo id det 1 1 ep),
          by simp only [resolveShow, hemp, eq_self_iff_true, if_true, hep, hdet]⟩
  · intro h
    exact buildGo_ok_of _ _ _ _ _ h
  · intro h
    exact buildGo_error_of _ _ _ _ _ h

/-- Witness for the amended C4 on `catW`: an empty-watch-set show always
yields an outcome, and the build over `[1, 2]` aborts because show 2's
resolution fails. -/
theorem per_show_failure_aborts_build_witness :
    (∃ o, resolveShow catW ((2592000200 : Int) - msPerThirtyDays) 3 [] = .ok o) ∧
    buildWatchLists catW 2592000200 [1, 2] (fun _ => [⟨1, 1, some 300⟩]) = .error () :=
  ⟨(per_show_failure_aborts_build catW 2592000200
      (fun _ => [⟨1, 1, some 300⟩]) [1, 2]).1 3 [] rfl,
   (per_show_failure_aborts_build catW 2592000200
      (fun _ => [⟨1, 1, some 300⟩]) [1, 2]).2.2 ⟨2, by simp, rfl⟩⟩

/-- Lexicographic code-unit comparison of two character lists. -/
def strLtB : List Char → List Char → Bool
  | [], [] => false
  | [], _ :: _ => true
  | _ :: _, [] => false
  | c :: cs, d :: ds => if c < d then true else if d < c then false else strLtB cs ds

/-- JS `a < b` on strings (lexicographic by code units; ISO dates compare
chronologically this way).  JS `a >= b` is its negation. -/
def airLt (a b : String) : Bool := strLtB a.data b.data

/-- The common season/episode fan-out of the Upcoming and Past build
effects: a failing show-details fetch skips the whole show (per-show catch),
a failing season fetch skips the season, an episode is kept when its air
date is truthy (non-empty) and `keep` accepts it, and a failing
episode-details fetch silently drops the episode (inner catch).  The
subsequent `.sort(...)` only permutes the list, so bucket membership is
decided here. -/
def collectEpisodes (cat : Catalog) (keep : String → Bool) (ids : List Nat) :
    List EpisodeInfo :=
  ids.flatMap fun showId =>
    match cat.showDetails showId with
    | none => []
    | some det =>
      (seasonRange (det.number_of_seasons.getD 0)).flatMap fun sn =>
        match cat.seasonDetails showId sn with
        | none => []
        | some sd =>
          sd.episodes.filterMap fun e =>
            if e.air_date ≠ "" ∧ keep e.air_date = true then
              match cat.episodeDetails showId sn e.episode_number with
              | none => none
              | some d => some (mkEpisodeInfo showId det sn e.episode_number d)
            else none

/-- The Upcoming effect keeps `ep.air_date && ep.air_date >= today`. -/
def collectUpcoming (cat : Catalog) (today : String) (ids : List Nat) :
    List EpisodeInfo :=
  collectEpisodes cat (fun ad => !airLt ad today) ids

/-- The Past effect keeps `ep.air_date && ep.air_date < today`. -/
def collectPast (cat : Catalog) (today : String) (ids : List Nat) :
    List EpisodeInfo :=
  collectEpisodes cat (fun ad => airLt ad today) ids

theorem mem_collectEpisodes (cat : Catalog) (keep : String → Bool) (ids : List Nat)
    (info : EpisodeInfo) :
    info ∈ collectEpisodes cat keep ids ↔
      ∃ (showId : Nat) (det : ShowDetail) (sn : Nat) (sd : SeasonDetail)
        (e : EpisodeData) (d : EpisodeDetail),
        showId ∈ ids ∧ cat.showDetails showId = some det ∧
        sn ∈ seasonRange (det.number_of_seasons.getD 0) ∧
        cat.seasonDetails showId sn = some sd ∧ e ∈ sd.episodes ∧
        e.air_date ≠ "" ∧ keep e.air_date = true ∧
        cat.episodeDetails showId sn e.episode_number = some d ∧
        info = mkEpisodeInfo showId det sn e.episode_number d := by
  constructor
  · intro h
    obtain ⟨showId, hid, h⟩ := List.mem_flatMap.1 h
    cases hdet : cat.showDetails showId with
    | none => simp only [collectEpisodes, hdet] at h; simp at h
    | some det =>
      simp only [collectEpisodes, hdet] at h
      obtain ⟨sn, hsn, h⟩ := List.mem_flatMap.1 h
      cases hsd : cat.seasonDetails showId sn with
      | none => simp only [hsd] at h; simp at h
      | some sd =>
        simp only [hsd] at h
        obtain ⟨e, he, hsome⟩ := List.mem_filterMap.1 h
        by_cases hc : e.air_date ≠ "" ∧ keep e.air_date = true
        · rw [if_pos hc] at hsome
          cases hd : cat.episodeDetails showId sn e.episode_number with
          | none => rw [hd] at hsome; simp at hsome
          | some d =>
            rw [hd] at hsome
            exact ⟨showId, det, sn, sd, e, d, hid, hdet, hsn, hsd, he, hc.1, hc.2, hd,
              by simpa using hsome.symm⟩
        · rw [if_neg hc] at hsome
          simp at hsome
  · rintro ⟨showId, det, sn, sd, e, d, hid, hdet, hsn, hsd, he, hne, hkeep, hd, rfl⟩
    refine List.mem_flatMap.2 ⟨showId, hid, ?_⟩
    simp only [collectEpisodes, hdet]
    refine List.mem_flatMap.2 ⟨sn, hsn, ?_⟩
    simp only [hsd]
    refine List.mem_filterMap.2 ⟨e, he, ?_⟩
    rw [if_pos ⟨hne, hkeep⟩, hd]

theorem collect_key_excluded (cat : Catalog) (keep : String → Bool) (ids : List Nat)
    (showId sn num : Nat)
    (h : ∀ (det : ShowDetail) (sd : SeasonDetail) (e : EpisodeData),
        cat.showDetails showId = some det →
        cat.seasonDetails showId sn = some sd → e ∈ sd.episodes →
        e.episode_number = num → e.air_date ≠ "" → keep e.air_date = true → False) :
    ∀ info ∈ collectEpisodes cat keep ids,
      info.showId = showId → info.season = sn → info.episode = num → False := by
  intro info hinfo h1 h2 h3
  obtain ⟨sid, det, sn', sd, e, d, _, hdet, _, hsd, he, hne, hkeep, _, rfl⟩ :=
    (mem_collectEpisodes _ _ _ _).1 hinfo
  have h1' : sid = showId := h1
  have h2' : sn' = sn := h2
  have h3' : e.episode_number = num := h3
  subst h1'
  subst h2'
  exact h det sd e hdet hsd he h3' hne hkeep

/-- A catalog listing a dated future episode whose details fetch fails. -/
def catC8 : Catalog where
  showDetails := fun id =>
    if id = 1 then some { name := "P", poster_path := none, number_of_seasons := some 1 }
    else none
  seasonDetails := fun id sn =>
    if id = 1 ∧ sn = 1 then
      some { episodes := [{ episode_number := 1, air_date := "2099-01-01" }] }
    else none
  episodeDetails := fun _ _ _ => none

/-- Counterexample to C8 as stated: a catalog episode with a non-empty air
date lands in NEITHER bucket, because its episode-details fetch fails and
both effects silently drop it. -/
theorem partition_neither_cex :
    ({ episode_number := 1, air_date := "2099-01-01" } : EpisodeData).air_date ≠ "" ∧
    ({ episode_number := 1, air_date := "2099-01-01" } : EpisodeData) ∈
      ({ episodes := [{ episode_number := 1, air_date := "2099-01-01" }] } :
        SeasonDetail).episodes ∧
    catC8.seasonDetails 1 1 =
      some { episodes := [{ episode_number := 1, air_date := "2099-01-01" }] } ∧
    collectUpcoming catC8 "2024-01-01" [1] = [] ∧
    collectPast catC8 "2024-01-01" [1] = [] :=
  ⟨by decide, by decide, rfl, rfl, rfl⟩

/-- C8 amended: a catalog episode of an onboarded show whose air date is
empty appears in neither bucket; one whose air date is non-empty AND whose
details fetch succeeds lands in exactly one bucket — Past when its air date
is strictly before today, Upcoming when on-or-after — provided listings of
its episode number within the season agree on the air date. -/
theorem partition_amended (cat : Catalog) (today : String) (ids : List Nat)
    (showId sn : Nat) (det : ShowDetail) (sd : SeasonDetail) (e : EpisodeData)
    (hid : showId ∈ ids)
    (hdet : cat.showDetails showId = some det)
    (hsn : sn ∈ seasonRange (det.number_of_seasons.getD 0))
    (hsd : cat.seasonDetails showId sn = some sd)
    (he : e ∈ sd.episodes)
    (huniq : ∀ e' ∈ sd.episodes, e'.episode_number = e.episode_number →
       e'.air_date = e.air_date) :
    (e.air_date = "" →
       (∀ info ∈ collectUpcoming cat today ids, info.showId = showId →
          info.season = sn → info.episode = e.episode_number → False) ∧
       (∀ info ∈ collectPast cat today ids, info.showId = showId →
          info.season = sn → info.episode = e.episode_number → False)) ∧
    (∀ d, cat.episodeDetails showId sn e.episode_number = some d → e.air_date ≠ "" →
      (airLt e.air_date today = false →
        mkEpisodeInfo showId det sn e.episode_number d ∈ collectUpcoming cat today ids ∧
        ∀ info ∈ collectPast cat today ids, info.showId = showId →
          info.season = sn → info.episode = e.episode_number → False) ∧
      (airLt e.air_date today = true →
        mkEpisodeInfo showId det sn e.episode_number d ∈ collectPast cat today ids ∧
        ∀ info ∈ collectUpcoming cat today ids, info.showId = showId →
          info.season = sn → info.episode = e.episode_number → False)) := by
  have hsame : ∀ (det' : ShowDetail) (sd' : SeasonDetail) (e' : EpisodeData),
      cat.showDetails showId = some det' → cat.seasonDetails showId sn = some sd' →
      e' ∈ sd'.episodes → e'.episode_number = e.episode_number →
      e'.air_date = e.air_date := by
    intro det' sd' e' hdet' hsd' he' hnum
    rw [hdet] at hdet'
    rw [hsd] at hsd'
    obtain rfl : sd = sd' := by simpa using hsd'
    exact huniq e' he' hnum
  constructor
  · intro hempty
    constructor
    · refine collect_key_excluded cat _ ids showId sn e.episode_number ?_
      intro det' sd' e' hdet' hsd' he' hnum hne _
      exact hne ((hsame det' sd' e' hdet' hsd' he' hnum).trans hempty)
    · refine collect_key_excluded cat _ ids showId sn e.episode_number ?_
      intro det' sd' e' hdet' hsd' he' hnum hne _
      exact hne ((hsame det' sd' e' hdet' hsd' he' hnum).trans hempty)
  · intro d hd hne
    constructor
    · intro hge
      constructor
      · refine (mem_collectEpisodes cat _ ids _).2
          ⟨showId, det, sn, sd, e, d, hid, hdet, hsn, hsd, he, hne, ?_, hd, rfl⟩
        simp [hge]
      · refine collect_key_excluded cat _ ids showId sn e.episode_number ?_
        intro det' sd' e' hdet' hsd' he' hnum _ hkeep
        rw [hsame det' sd' e' hdet' hsd' he' hnum, hge] at hkeep
        exact absurd hkeep (by simp)
    · intro hlt
      constructor
      · exact (mem_collectEpisodes cat _ ids _).2
          ⟨showId, det, sn, sd, e, d, hid, hdet, hsn, hsd, he, hne, hlt, hd, rfl⟩
      · refine collect_key_excluded cat _ ids showId sn e.episode_number ?_
        intro det' sd' e' hdet' hsd' he' hnum _ hkeep
        rw [hsame det' sd' e' hdet' hsd' he' hnum, hlt] at hkeep
        exact absurd hkeep (by simp)

/-- Witness for the amended C8 on `catW` with today = 2020-01-05: S1E1
(aired 2020-01-01) is in Past and not in Upcoming. -/
theorem partition_amended_witness :
    mkEpisodeInfo 1 { name := "W", poster_path := none, number_of_seasons := some 2 }
      1 1 dW ∈ collectPast catW "2020-01-05" [1] ∧
    ∀ info ∈ collectUpcoming catW "2020-01-05" [1], info.showId = 1 →
      info.season = 1 → info.episode = 1 → False :=
  ((partition_amended catW "2020-01-05" [1] 1 1
      { name := "W", poster_path := none, number_of_seasons := some 2 }
      { episodes := [{ episode_number := 1, air_date := "2020-01-01" },
                     { episode_number := 2, air_date := "2020-01-08" }] }
      { episode_number := 1, air_date := "2020-01-01" }
      (by decide) rfl (by decide) rfl (by decide) (by decide)).2
    dW rfl (by decide)).2 (by decide)

/-- Function `markAsWatched`: build the appended array, attempt the store write
(`updateDoc`, whose success is the `writeOk` parameter), and only on success
replace the in-memory map entry; on failure the map is untouched and the
error message is surfaced via `setError`.  Result: (new map, new error). -/
def markAsWatched (writeOk : Bool) (nowMs : Int)
    (m : Nat → List WatchedEntry) (err : Option String)
    (showId season episode : Nat) : (Nat → List WatchedEntry) × Option String :=
  let existingArray := m showId
  let updatedArray := existingArray ++ [⟨season, episode, some nowMs⟩]
  if writeOk then
    (fun id => if id = showId then updatedArray else m id, err)
  else
    (m, some "Failed to mark episode as watched. Try again.")

/-- Function `unmarkAsWatched`: same store-first discipline, removing every entry of
the (season, episode) pair. -/
def unmarkAsWatched (writeOk : Bool) (m : Nat → List WatchedEntry)
    (err : Option String) (showId season episode : Nat) :
    (Nat → List WatchedEntry) × Option String :=
  let existingArray := m showId
  let updatedArray := existingArray.filter
    (fun we => !decide (we.season = season ∧ we.episode = episode))
  if writeOk then
    (fun id => if id = showId then updatedArray else m id, err)
  else
    (m, some "Failed to unwatch that episode. Try again.")

/-- C9: mark/unmark update the in-memory watch log only after the store
write succeeds — on a failed write the map is exactly the pre-call map and a
recoverable error is surfaced; on a successful write the map holds exactly
the appended (resp. filtered) array. -/
theorem mark_unmark_no_optimistic_update (nowMs : Int) (m : Nat → List WatchedEntry)
    (err : Option String) (showId season episode : Nat) :
    ((markAsWatched false nowMs m err showId season episode).1 = m ∧
     (markAsWatched false nowMs m err showId season episode).2.isSome = true) ∧
    ((unmarkAsWatched false m err showId season episode).1 = m ∧
     (unmarkAsWatched false m err showId season episode).2.isSome = true) ∧
    ((markAsWatched true nowMs m err showId season episode).1 showId =
       m showId ++ [⟨season, episode, some nowMs⟩] ∧
     (markAsWatched true nowMs m err showId season episode).2 = err) ∧
    ((unmarkAsWatched true m err showId season episode).1 showId =
       (m showId).filter
         (fun we => !decide (we.season = season ∧ we.episode = episode)) ∧
     (unmarkAsWatched true m err showId season episode).2 = err) := by
  refine ⟨⟨rfl, rfl⟩, ⟨rfl, rfl⟩, ⟨?_, rfl⟩, ⟨?_, rfl⟩⟩
  · simp [markAsWatched]
  · simp [unmarkAsWatched]

end Bingefy
